import Mathlib

/-
  Verification of the AVR dice firmware (src/dice.c) against its
  natural-language specification.

  The firmware is shallowly embedded: machine integers are modelled as Nat
  with explicit reductions modulo 2^16 where the C code uses uint16_t
  arithmetic that can wrap; the button is modelled as a Boolean trace
  indexed by polling tick; busy-wait loops become fueled recursions whose
  fuel is proved sufficient for the reachable parameter ranges; table
  lookups are modelled with List.get? so that an out-of-bounds access
  poisons the run with none.
-/

namespace AvrDice

/-! ## Static tables (src/dice.c lines 64-101)

  LED layout (7 bits):  bit0 - bit1 / bit2 bit3 bit4 / bit5 - bit6.
  faces and spin_sequence are written here as the numeric values of the
  C bitmask expressions, e.g. faces[1] = DOT_0 | DOT_6 = 1 + 64 = 65. -/

def faces : List Nat := [8, 65, 42, 99, 107, 119]

def spin_sequence : List Nat := [3, 18, 80, 96, 36, 5]

def intensity_table : List Nat :=
  [0, 0, 0, 0,
   0, 0, 0, 0,
   1, 1, 1, 1,
   2, 2, 3, 3,
   4, 5, 6, 7,
   8, 9, 11, 12,
   14, 16, 18, 20,
   22, 25, 28, 30,
   33, 37, 40, 44,
   48, 52, 56, 60,
   65, 70, 76, 81,
   87, 93, 99, 106,
   113, 120, 127, 135,
   143, 152, 161, 170,
   179, 189, 199, 209,
   220, 231, 243, 255]

/-! ## Throw parameter derivation (src/dice.c lines 147-162)

  seed and previous_seed are uint16_t parameters; callers pass values
  below 2^16.  All intermediate arithmetic is within uint16_t range for
  such inputs, except the subtraction seed - previous_seed, which wraps
  modulo 2^16 and is modelled explicitly. -/

def initFace (seed : Nat) : Nat := seed % 6

def stop_at (seed : Nat) : Nat := 250 + seed % 128 * 4

def quotient (seed : Nat) : Nat := 1 + seed / 4 % 6

def duration (seed prev : Nat) : Nat := (seed + 65536 - prev) % 65536

def durationClamped (seed prev : Nat) : Nat :=
  if duration seed prev > 1023 then 1023 else duration seed prev

def delay0 (seed prev : Nat) : Nat :=
  68 - durationClamped seed prev * 64 % 65536 / 1024

/-! ## The delay-growth loop of throw (src/dice.c lines 164-188)

  stepDelay is the update on line 166.  throwIter counts the loop
  iterations ignoring I/O; throwLoop (below) is the full loop with the
  button trace and the event trace. -/

def stepDelay (q d : Nat) : Nat := d + 3 + d / q

def throwIter (stop q : Nat) : Nat → Nat → Option Nat
  | 0, _ => none
  | fuel + 1, d =>
    if d < stop then (throwIter stop q fuel (stepDelay q d)).map (· + 1)
    else some 0

def orbit (q : Nat) : Nat → Nat → Nat
  | 0, d => d
  | k + 1, d => orbit q k (stepDelay q d)

/-- Observable events emitted by the throw phase: a pattern written to the
display port, or a beep of a given length in milliseconds. -/
inductive Ev where
  | display (pattern : Nat)
  | beepEv (len : Nat)
deriving DecidableEq

/-- True when the button trace shows a press at one of the n polling ticks
t, t+1, ..., t+n-1; models the inner busy-wait of lines 168-174. -/
def firstPress (btn : Nat → Bool) (t : Nat) : Nat → Bool
  | 0 => false
  | n + 1 => btn t || firstPress btn (t + 1) n

/-- The while loop of throw (lines 164-184): arguments are fuel, delay,
face, and the absolute polling tick.  Returns none if fuel runs out or a
faces lookup is out of bounds; otherwise some (interrupted, events). -/
def throwLoop (btn : Nat → Bool) (stop q : Nat) :
    Nat → Nat → Nat → Nat → Option (Bool × List Ev)
  | 0, _, _, _ => none
  | fuel + 1, d, face, t =>
    if d < stop then
      if firstPress btn t (stepDelay q d) then some (true, [])
      else
        (faces.get? face).bind fun pat =>
          (throwLoop btn stop q fuel (stepDelay q d)
              (if face + 1 ≥ 6 then 0 else face + 1) (t + stepDelay q d)).map
            fun r => (r.1, Ev.display pat :: Ev.beepEv 3 :: r.2)
    else some (false, [Ev.beepEv 20])

/-- throw (lines 144-189) assembled from its parameter derivation and its
loop, with fuel 300 (proved sufficient below for all uint16 inputs). -/
def throwRun (btn : Nat → Bool) (seed prev : Nat) : Option (Bool × List Ev) :=
  throwLoop btn (stop_at seed) (quotient seed) 300 (delay0 seed prev)
    (initFace seed) 0

/-- Pattern of the last display event of an event list, if any. -/
def lastDisplay : List Ev → Option Nat
  | [] => none
  | Ev.display p :: rest =>
    match lastDisplay rest with
    | none => some p
    | some pq => some pq
  | Ev.beepEv _ :: rest => lastDisplay rest

/-- Recognizes event lists made only of complete frames: a displayed face
followed by its 3 ms beep, repeated. -/
def framePairs : List Ev → Bool
  | [] => true
  | Ev.display _ :: Ev.beepEv 3 :: rest => framePairs rest
  | _ => false

/-! ## The spin loop (src/dice.c lines 131-139) -/

def spinIndex (seed : Nat) : Nat := seed / 32 % 6

/-- The while loop of spin: arguments are fuel, the uint16 seed, and the
polling tick.  Returns the final seed and the displayed patterns. -/
def spinLoop (btn : Nat → Bool) : Nat → Nat → Nat → Option (Nat × List Nat)
  | 0, _, _ => none
  | fuel + 1, seed, t =>
    if btn t then
      (spin_sequence.get? (spinIndex seed)).bind fun pat =>
        (spinLoop btn fuel ((seed + 1) % 65536) (t + 1)).map
          fun r => (r.1, pat :: r.2)
    else some (seed, [])

/-! ## The fade phase (src/dice.c lines 194-209)

  Hardware state touched by fade: the pip port PORTA, the direction bit
  DDRB.PB2 of the decoration pin, and the PWM duty register OCR0A. -/

structure HwState where
  porta : Nat
  ddrbPB2 : Bool
  ocr0a : Nat
deriving DecidableEq

/-- The gamma walk of fade (lines 203-206): iterates value = n-1 down
to 0, checking the button before each body.  Returns the final state and
the list of intensity_table indices read, in order. -/
def fadeLoop (btn : Nat → Bool) : Nat → Nat → HwState → HwState × List Nat
  | 0, _, s => (s, [])
  | n + 1, t, s =>
    if btn t then (s, [])
    else
      let r := fadeLoop btn n (t + 1) { s with ocr0a := intensity_table.getD n 0 }
      (r.1, n :: r.2)

/-- fade (lines 194-209): raises DDRB.PB2, sets full duty, walks the gamma
table from index 63 down to 0, then releases DDRB.PB2. -/
def fade (btn : Nat → Bool) (s : HwState) : HwState × List Nat :=
  let s1 : HwState := { s with ddrbPB2 := true, ocr0a := 255 }
  let r := fadeLoop btn 64 0 s1
  ({ r.1 with ddrbPB2 := false }, r.2)

/-! ## The soft-dim stage of wait_or_sleep (src/dice.c lines 247-257) -/

def softDimDuty (a : Nat) : Nat := 32 - a / (128 / 32)

/-- One cycle per recursive step: draw the entry pattern at duty dc, then
check the button; a press returns true after the current cycle.  Records
(duty, pattern) per cycle. -/
def softDimLoop (btn : Nat → Bool) (fig : Nat) : Nat → Nat → Bool × List (Nat × Nat)
  | 0, _ => (false, [])
  | n + 1, a =>
    let dc := softDimDuty a
    if btn a then (true, [(dc, fig)])
    else
      let r := softDimLoop btn fig n (a + 1)
      (r.1, (dc, fig) :: r.2)

/-- The 127-cycle software-PWM dim of wait_or_sleep, entered after the
active-wait timeout with fig latched from PORTA. -/
def softDim (btn : Nat → Bool) (fig : Nat) : Bool × List (Nat × Nat) :=
  softDimLoop btn fig 127 0

/-! ## Bit-level helpers for the face table -/

/-- Population count of the low 7 bits. -/
def popcount7 (n : Nat) : Nat := ((List.range 7).filter fun b => n.testBit b).length

/-- Reversal of the low 7 bits: bit b moves to bit 6 - b. -/
def rev7 (n : Nat) : Nat :=
  (List.range 7).foldr (fun b acc => acc + (if n.testBit b then 2 ^ (6 - b) else 0)) 0

/-! ## Parameter range lemmas -/

lemma stop_at_lb (seed : Nat) : 250 ≤ stop_at seed := by
  unfold stop_at; omega

lemma stop_at_ub (seed : Nat) : stop_at seed ≤ 758 := by
  unfold stop_at
  have h : seed % 128 < 128 := Nat.mod_lt _ (by omega)
  omega

lemma quotient_lb (seed : Nat) : 1 ≤ quotient seed := by
  unfold quotient; omega

lemma quotient_ub (seed : Nat) : quotient seed ≤ 6 := by
  unfold quotient
  have h : seed / 4 % 6 < 6 := Nat.mod_lt _ (by omega)
  omega

lemma durationClamped_le (seed prev : Nat) : durationClamped seed prev ≤ 1023 := by
  unfold durationClamped; split <;> omega

lemma delay0_eq (seed prev : Nat) :
    delay0 seed prev = 68 - durationClamped seed prev * 64 / 1024 := by
  unfold delay0
  have h := durationClamped_le seed prev
  rw [Nat.mod_eq_of_lt (by omega)]

lemma delay0_div_le (seed prev : Nat) : durationClamped seed prev * 64 / 1024 ≤ 63 := by
  have h := durationClamped_le seed prev
  have h2 : durationClamped seed prev * 64 ≤ 65472 := by omega
  have h3 : durationClamped seed prev * 64 / 1024 ≤ 65472 / 1024 :=
    Nat.div_le_div_right h2
  omega

lemma delay0_lb (seed prev : Nat) : 5 ≤ delay0 seed prev := by
  rw [delay0_eq]
  have := delay0_div_le seed prev
  omega

lemma delay0_ub (seed prev : Nat) : delay0 seed prev ≤ 68 := by
  rw [delay0_eq]; omega

/-! ## Lemmas about the delay recurrence -/

lemma stepDelay_ge (q d : Nat) : d + 3 ≤ stepDelay q d :=
  Nat.le_add_right (d + 3) (d / q)

lemma stepDelay_mono (q : Nat) {d e : Nat} (h : d ≤ e) :
    stepDelay q d ≤ stepDelay q e := by
  unfold stepDelay
  have h2 : d / q ≤ e / q := Nat.div_le_div_right h
  omega

lemma stepDelay_six_le {q : Nat} (hq1 : 1 ≤ q) (hq6 : q ≤ 6) (d : Nat) :
    stepDelay 6 d ≤ stepDelay q d := by
  unfold stepDelay
  have h2 : d / 6 ≤ d / q := Nat.div_le_div_left hq6 hq1
  omega

lemma orbit_six_le {q : Nat} (hq1 : 1 ≤ q) (hq6 : q ≤ 6) :
    ∀ k d e : Nat, e ≤ d → orbit 6 k e ≤ orbit q k d := by
  intro k
  induction k with
  | zero => intro d e h; simpa [orbit] using h
  | succ k ih =>
    intro d e h
    show orbit 6 k (stepDelay 6 e) ≤ orbit q k (stepDelay q d)
    exact ih _ _ (le_trans (stepDelay_mono 6 h) (stepDelay_six_le hq1 hq6 d))

/-! ## Lemmas about the iteration counter -/

lemma throwIter_some (stop q : Nat) :
    ∀ fuel d : Nat, stop ≤ d + 3 * fuel →
      ∃ n, throwIter stop q (fuel + 1) d = some n := by
  intro fuel
  induction fuel with
  | zero =>
    intro d h
    refine ⟨0, ?_⟩
    unfold throwIter
    rw [if_neg (by omega)]
  | succ m ih =>
    intro d h
    by_cases hd : d < stop
    · obtain ⟨n, hn⟩ := ih (stepDelay q d) (by have := stepDelay_ge q d; omega)
      refine ⟨n + 1, ?_⟩
      unfold throwIter
      rw [if_pos hd, hn]
      rfl
    · exact ⟨0, by unfold throwIter; rw [if_neg hd]⟩

lemma throwIter_le_orbit (stop q : Nat) :
    ∀ k fuel d n : Nat, stop ≤ orbit q k d →
      throwIter stop q fuel d = some n → n ≤ k := by
  intro k
  induction k with
  | zero =>
    intro fuel d n ho hit
    simp only [orbit] at ho
    match fuel with
    | 0 => simp [throwIter] at hit
    | fuel + 1 =>
      unfold throwIter at hit
      rw [if_neg (by omega)] at hit
      simp at hit
      omega
  | succ k ih =>
    intro fuel d n ho hit
    match fuel with
    | 0 => simp [throwIter] at hit
    | fuel + 1 =>
      by_cases hd : d < stop
      · unfold throwIter at hit
        rw [if_pos hd] at hit
        obtain ⟨m, hm, rfl⟩ := Option.map_eq_some'.mp hit
        have ho2 : stop ≤ orbit q k (stepDelay q d) := ho
        exact Nat.succ_le_succ (ih fuel _ m ho2 hm)
      · unfold throwIter at hit
        rw [if_neg hd] at hit
        simp at hit
        omega

lemma throwIter_antitone (stop q : Nat) :
    ∀ fuel d e n m : Nat, d ≤ e →
      throwIter stop q fuel d = some n →
      throwIter stop q fuel e = some m → m ≤ n := by
  intro fuel
  induction fuel with
  | zero => intro d e n m h hd he; simp [throwIter] at hd
  | succ fuel ih =>
    intro d e n m h hd he
    by_cases hse : e < stop
    · have hsd : d < stop := lt_of_le_of_lt h hse
      unfold throwIter at hd he
      rw [if_pos hsd] at hd
      rw [if_pos hse] at he
      obtain ⟨n2, hn2, rfl⟩ := Option.map_eq_some'.mp hd
      obtain ⟨m2, hm2, rfl⟩ := Option.map_eq_some'.mp he
      have := ih _ _ _ _ (stepDelay_mono q h) hn2 hm2
      omega
    · unfold throwIter at he
      rw [if_neg hse] at he
      simp at he
      omega

lemma throwIter_pos (stop q fuel d n : Nat) (hd : d < stop)
    (h : throwIter stop q fuel d = some n) : 1 ≤ n := by
  match fuel with
  | 0 => simp [throwIter] at h
  | fuel + 1 =>
    unfold throwIter at h
    rw [if_pos hd] at h
    obtain ⟨m, _, rfl⟩ := Option.map_eq_some'.mp h
    omega

/-! ## Helper lemmas about button windows, table lookups and event lists -/

lemma firstPress_false : ∀ n t : Nat, firstPress (fun _ => false) t n = false := by
  intro n
  induction n with
  | zero => intro t; rfl
  | succ m ih => intro t; simp [firstPress, ih]

lemma faces_get?_lt (f : Nat) (hf : f < 6) :
    faces.get? f = some (faces.getD f 0) := by
  interval_cases f <;> rfl

lemma spin_get?_lt (i : Nat) (hi : i < 6) :
    spin_sequence.get? i = some (spin_sequence.getD i 0) := by
  interval_cases i <;> rfl

lemma spinIndex_lt (seed : Nat) : spinIndex seed < 6 :=
  Nat.mod_lt _ (by omega)

lemma faceNext_lt {f : Nat} (hf : f < 6) :
    (if f + 1 ≥ 6 then 0 else f + 1) < 6 := by
  split <;> omega

lemma faceNext_eq {f : Nat} (hf : f < 6) :
    (if f + 1 ≥ 6 then 0 else f + 1) = (f + 1) % 6 := by
  split
  · omega
  · omega

lemma lastDisplay_display_none {evs : List Ev} (p : Nat)
    (h : lastDisplay evs = none) :
    lastDisplay (Ev.display p :: evs) = some p := by
  simp [lastDisplay, h]

lemma lastDisplay_display_some {evs : List Ev} (p x : Nat)
    (h : lastDisplay evs = some x) :
    lastDisplay (Ev.display p :: evs) = some x := by
  simp [lastDisplay, h]

lemma lastDisplay_beep (len : Nat) (evs : List Ev) :
    lastDisplay (Ev.beepEv len :: evs) = lastDisplay evs := rfl

/-! ## The clean (never-pressed) throw run -/

lemma run_clean (stop q : Nat) :
    ∀ fuel d f t : Nat, f < 6 → stop ≤ d + 3 * fuel →
      ∃ n evs, throwIter stop q (fuel + 1) d = some n ∧
        throwLoop (fun _ => false) stop q (fuel + 1) d f t = some (false, evs) ∧
        (d < stop → 1 ≤ n) ∧
        lastDisplay evs = (if n = 0 then none else faces.get? ((f + (n - 1)) % 6)) := by
  intro fuel
  induction fuel with
  | zero =>
    intro d f t hf h
    have hd : ¬ d < stop := by omega
    refine ⟨0, [Ev.beepEv 20], ?_, ?_, by omega, by simp [lastDisplay]⟩
    · unfold throwIter; rw [if_neg hd]
    · unfold throwLoop; rw [if_neg hd]
  | succ m ih =>
    intro d f t hf h
    by_cases hd : d < stop
    · have hnext := faceNext_lt hf
      obtain ⟨n, evs, hitn, hloop, _, hlast⟩ :=
        ih (stepDelay q d) (if f + 1 ≥ 6 then 0 else f + 1) (t + stepDelay q d)
          hnext (by have := stepDelay_ge q d; omega)
      refine ⟨n + 1, Ev.display (faces.getD f 0) :: Ev.beepEv 3 :: evs, ?_, ?_,
        by omega, ?_⟩
      · unfold throwIter; rw [if_pos hd, hitn]; rfl
      · unfold throwLoop
        rw [if_pos hd, firstPress_false, if_neg (by simp),
          faces_get?_lt f hf]
        simp only [Option.some_bind]
        rw [hloop]
        rfl
      · cases n with
        | zero =>
          have h0 : lastDisplay evs = none := by simpa using hlast
          have h2 : lastDisplay (Ev.beepEv 3 :: evs) = none := by
            rw [lastDisplay_beep]; exact h0
          rw [lastDisplay_display_none _ h2, if_neg (by omega)]
          have hmod : (f + (0 + 1 - 1)) % 6 = f := by
            simp [Nat.mod_eq_of_lt hf]
          rw [hmod, faces_get?_lt f hf]
        | succ n2 =>
          rw [if_neg (by omega)] at hlast
          have hidx : ((if f + 1 ≥ 6 then 0 else f + 1) + (n2 + 1 - 1)) % 6 =
              (f + (n2 + 1)) % 6 := by
            rw [faceNext_eq hf, Nat.mod_add_mod]
            congr 1
            omega
          rw [hidx] at hlast
          have hlt : (f + (n2 + 1)) % 6 < 6 := Nat.mod_lt _ (by omega)
          rw [faces_get?_lt _ hlt] at hlast
          have h2 : lastDisplay (Ev.beepEv 3 :: evs) =
              some (faces.getD ((f + (n2 + 1)) % 6) 0) := by
            rw [lastDisplay_beep]; exact hlast
          rw [lastDisplay_display_some _ _ h2, if_neg (by omega)]
          have hmod : (f + (n2 + 1 + 1 - 1)) % 6 = (f + (n2 + 1)) % 6 := by
            congr 1
          rw [hmod, faces_get?_lt _ hlt]
    · refine ⟨0, [Ev.beepEv 20], ?_, ?_, by omega, by simp [lastDisplay]⟩
      · unfold throwIter; rw [if_neg hd]
      · unfold throwLoop; rw [if_neg hd]

/-! ## The aborted throw run -/

lemma run_abort (btn : Nat → Bool) (stop q : Nat) :
    ∀ fuel d f t : Nat, ∀ evs : List Ev,
      throwLoop btn stop q fuel d f t = some (true, evs) →
      Ev.beepEv 20 ∉ evs ∧ framePairs evs = true ∧
      ∀ evsC : List Ev,
        throwLoop (fun _ => false) stop q fuel d f t = some (false, evsC) →
        ∃ rest, evs ++ rest = evsC := by
  intro fuel
  induction fuel with
  | zero => intro d f t evs h; simp [throwLoop] at h
  | succ m ih =>
    intro d f t evs h
    by_cases hd : d < stop
    · unfold throwLoop at h
      rw [if_pos hd] at h
      by_cases hp : firstPress btn t (stepDelay q d) = true
      · rw [if_pos hp] at h
        simp only [Option.some_inj, Prod.mk.injEq] at h
        obtain ⟨-, hevs⟩ := h
        subst hevs
        refine ⟨by simp, rfl, ?_⟩
        intro evsC _
        exact ⟨evsC, rfl⟩
      · rw [if_neg hp] at h
        cases hg : faces.get? f with
        | none => rw [hg] at h; simp at h
        | some pat =>
          rw [hg] at h
          simp only [Option.some_bind] at h
          cases hres : throwLoop btn stop q m (stepDelay q d)
              (if f + 1 ≥ 6 then 0 else f + 1) (t + stepDelay q d) with
          | none => rw [hres] at h; simp at h
          | some r =>
            obtain ⟨r1, r2⟩ := r
            rw [hres] at h
            simp only [Option.map_some', Option.some_inj, Prod.mk.injEq] at h
            obtain ⟨hr1, hevs⟩ := h
            subst hr1
            subst hevs
            obtain ⟨hnotin, hfp, hpref⟩ := ih _ _ _ _ hres
            refine ⟨?_, ?_, ?_⟩
            · simp only [List.mem_cons]
              rintro (h20 | h20 | h20)
              · exact absurd h20 (by simp)
              · exact absurd h20 (by simp)
              · exact hnotin h20
            · exact hfp
            · intro evsC hC
              unfold throwLoop at hC
              rw [if_pos hd, firstPress_false, if_neg (by simp), hg] at hC
              simp only [Option.some_bind] at hC
              cases hresC : throwLoop (fun _ => false) stop q m (stepDelay q d)
                  (if f + 1 ≥ 6 then 0 else f + 1) (t + stepDelay q d) with
              | none => rw [hresC] at hC; simp at hC
              | some rC =>
                rw [hresC] at hC
                obtain ⟨rc1, rc2⟩ := rC
                simp only [Option.map_some', Option.some_inj, Prod.mk.injEq] at hC
                obtain ⟨hrc1, hevsC⟩ := hC
                subst hrc1
                obtain ⟨rest, hrest⟩ := hpref rc2 hresC
                refine ⟨rest, ?_⟩
                rw [← hevsC, ← hrest]
                simp
    · unfold throwLoop at h
      rw [if_neg hd] at h
      simp at h

/-! ## Totality of the throw loop under any button trace -/

lemma run_total (btn : Nat → Bool) (stop q : Nat) :
    ∀ fuel d f t : Nat, f < 6 → stop ≤ d + 3 * fuel →
      throwLoop btn stop q (fuel + 1) d f t ≠ none := by
  intro fuel
  induction fuel with
  | zero =>
    intro d f t hf h
    unfold throwLoop
    rw [if_neg (by omega)]
    simp
  | succ m ih =>
    intro d f t hf h
    unfold throwLoop
    by_cases hd : d < stop
    · rw [if_pos hd]
      by_cases hp : firstPress btn t (stepDelay q d) = true
      · rw [if_pos hp]; simp
      · rw [if_neg hp, faces_get?_lt f hf]
        simp only [Option.some_bind]
        have hih := ih (stepDelay q d) (if f + 1 ≥ 6 then 0 else f + 1)
          (t + stepDelay q d) (faceNext_lt hf)
          (by have := stepDelay_ge q d; omega)
        cases hres : throwLoop btn stop q (m + 1) (stepDelay q d)
            (if f + 1 ≥ 6 then 0 else f + 1) (t + stepDelay q d) with
        | none => exact absurd hres hih
        | some r => simp
    · rw [if_neg hd]; simp

/-! ## The spin loop, general button trace -/

lemma spin_run (btn : Nat → Bool) :
    ∀ k s t : Nat, s < 65536 →
      (∀ i, i < k → btn (t + i) = true) → btn (t + k) = false →
      spinLoop btn (k + 1) s t =
        some ((s + k) % 65536,
          (List.range k).map fun i =>
            spin_sequence.getD (spinIndex ((s + i) % 65536)) 0) := by
  intro k
  induction k with
  | zero =>
    intro s t hs _ hr
    unfold spinLoop
    rw [if_neg (by simpa using hr)]
    simp [Nat.mod_eq_of_lt hs]
  | succ k ih =>
    intro s t hs hp hr
    unfold spinLoop
    rw [if_pos (by simpa using hp 0 (by omega)),
      spin_get?_lt _ (spinIndex_lt s)]
    simp only [Option.some_bind]
    rw [ih ((s + 1) % 65536) (t + 1) (Nat.mod_lt _ (by omega))
      (fun i hi => by
        have h2 := hp (i + 1) (by omega)
        rw [show t + 1 + i = t + (i + 1) by omega]
        exact h2)
      (by
        rw [show t + 1 + k = t + (k + 1) by omega]
        exact hr)]
    simp only [Option.map_some', Option.some_inj]
    refine Prod.ext ?_ ?_
    · show ((s + 1) % 65536 + k) % 65536 = (s + (k + 1)) % 65536
      rw [Nat.mod_add_mod]
      congr 1
      omega
    · show spin_sequence.getD (spinIndex s) 0 ::
          ((List.range k).map fun i =>
            spin_sequence.getD (spinIndex (((s + 1) % 65536 + i) % 65536)) 0) =
          (List.range (k + 1)).map fun i =>
            spin_sequence.getD (spinIndex ((s + i) % 65536)) 0
      rw [List.range_succ_eq_map, List.map_cons, List.map_map]
      refine congrArg₂ List.cons ?_ ?_
      · rw [show (s + 0) % 65536 = s by simp [Nat.mod_eq_of_lt hs]]
      · refine List.map_congr_left ?_
        intro i _
        simp only [Function.comp_apply]
        rw [Nat.mod_add_mod]
        rw [show s + 1 + i = s + Nat.succ i by omega]

/-! ## The soft-dim loop of wait_or_sleep -/

lemma softDimLoop_clean (btn : Nat → Bool) (fig : Nat) :
    ∀ n a : Nat, (∀ i, i < n → btn (a + i) = false) →
      softDimLoop btn fig n a =
        (false, (List.range n).map fun i => (softDimDuty (a + i), fig)) := by
  intro n
  induction n with
  | zero => intro a _; rfl
  | succ m ih =>
    intro a hp
    unfold softDimLoop
    rw [if_neg (by simp [show btn a = false by simpa using hp 0 (by omega)])]
    rw [ih (a + 1) (fun i hi => by
      have h2 := hp (i + 1) (by omega)
      rw [show a + 1 + i = a + (i + 1) by omega]
      exact h2)]
    simp only [Prod.mk.injEq, true_and]
    rw [List.range_succ_eq_map, List.map_cons, List.map_map]
    refine congrArg₂ List.cons (by rw [show a + 0 = a by omega]) ?_
    refine List.map_congr_left ?_
    intro i _
    simp only [Function.comp_apply]
    rw [show a + 1 + i = a + Nat.succ i by omega]

lemma softDimLoop_press (btn : Nat → Bool) (fig : Nat) :
    ∀ n a j : Nat, j < n → (∀ i, i < j → btn (a + i) = false) →
      btn (a + j) = true →
      softDimLoop btn fig n a =
        (true, (List.range (j + 1)).map fun i => (softDimDuty (a + i), fig)) := by
  intro n
  induction n with
  | zero => intro a j hj; omega
  | succ m ih =>
    intro a j hj hp hb
    cases j with
    | zero =>
      unfold softDimLoop
      rw [if_pos (by simpa using hb)]
      simp [List.range_succ]
    | succ j2 =>
      unfold softDimLoop
      rw [if_neg (by simp [show btn a = false by simpa using hp 0 (by omega)])]
      rw [ih (a + 1) j2 (by omega)
        (fun i hi => by
          have h2 := hp (i + 1) (by omega)
          rw [show a + 1 + i = a + (i + 1) by omega]
          exact h2)
        (by
          rw [show a + 1 + j2 = a + (j2 + 1) by omega]
          exact hb)]
      simp only [Prod.mk.injEq, true_and]
      rw [List.range_succ_eq_map (j2 + 1), List.map_cons, List.map_map]
      refine congrArg₂ List.cons ?_ ?_
      · rw [show a + 0 = a by omega]
      · refine List.map_congr_left ?_
        intro i _
        simp only [Function.comp_apply]
        rw [show a + 1 + i = a + Nat.succ i by omega]

/-! ## The fade loop -/

lemma fadeLoop_porta (btn : Nat → Bool) :
    ∀ n t : Nat, ∀ s : HwState, (fadeLoop btn n t s).1.porta = s.porta := by
  intro n
  induction n with
  | zero => intro t s; rfl
  | succ m ih =>
    intro t s
    unfold fadeLoop
    by_cases hb : btn t = true
    · rw [if_pos hb]
    · rw [if_neg hb]
      exact ih (t + 1) { s with ocr0a := intensity_table.getD m 0 }

lemma fadeLoop_reads_lt (btn : Nat → Bool) :
    ∀ n t : Nat, ∀ s : HwState, ∀ i ∈ (fadeLoop btn n t s).2, i < n := by
  intro n
  induction n with
  | zero => intro t s i hi; simp [fadeLoop] at hi
  | succ m ih =>
    intro t s i hi
    unfold fadeLoop at hi
    by_cases hb : btn t = true
    · rw [if_pos hb] at hi
      simp at hi
    · rw [if_neg hb] at hi
      simp only [List.mem_cons] at hi
      rcases hi with rfl | hi
      · omega
      · exact Nat.lt_succ_of_lt (ih (t + 1) _ i hi)

/-! ## Claim theorems -/

set_option maxRecDepth 20000 in
/-- Claim C1, counterexample: at seed 0, previous_seed 0 the clean run of
throw performs N = 2 iterations, and the last displayed pattern is
faces[1] = 65, whereas the claim predicts faces[(0 + 2) mod 6] = faces[2]:
the final face shown is not (initial_face + N) mod 6. -/
theorem throw_final_face_cex :
    throwIter (stop_at 0) (quotient 0) 300 (delay0 0 0) = some 2 ∧
    throwRun (fun _ => false) 0 0 =
      some (false, [Ev.display 8, Ev.beepEv 3, Ev.display 65, Ev.beepEv 3,
        Ev.beepEv 20]) ∧
    lastDisplay [Ev.display 8, Ev.beepEv 3, Ev.display 65, Ev.beepEv 3,
        Ev.beepEv 20] ≠
      faces.get? ((initFace 0 + 2) % 6) := by decide

/-- Claim C1 (amended): when throw runs to completion without the button
being pressed, the final face shown is (initial_face + N - 1) mod 6, where
initial_face = seed mod 6 and N ≥ 1 is the number of iterations of the
delay-growth loop; both N and the final face are deterministic functions of
seed and previous_seed (the displayed face is advanced after each display,
so the last display uses the face reached after N - 1 advances). -/
theorem throw_final_face (seed prev : Nat) (hs : seed < 65536)
    (hp : prev < 65536) :
    ∃ n evs,
      throwIter (stop_at seed) (quotient seed) 300 (delay0 seed prev) = some n ∧
      throwRun (fun _ => false) seed prev = some (false, evs) ∧ 1 ≤ n ∧
      lastDisplay evs = faces.get? ((initFace seed + (n - 1)) % 6) := by
  obtain ⟨n, evs, hit, hloop, hpos, hlast⟩ :=
    run_clean (stop_at seed) (quotient seed) 299 (delay0 seed prev)
      (initFace seed) 0 (Nat.mod_lt _ (by omega))
      (by have := stop_at_ub seed; have := delay0_lb seed prev; omega)
  have hdlt : delay0 seed prev < stop_at seed := by
    have := delay0_ub seed prev
    have := stop_at_lb seed
    omega
  have h1 : 1 ≤ n := hpos hdlt
  refine ⟨n, evs, by simpa using hit, by unfold throwRun; simpa using hloop,
    h1, ?_⟩
  rw [hlast, if_neg (by omega)]

/-- Claim C1 witness at seed 0, previous_seed 0. -/
theorem throw_final_face_case :
    ∃ n evs,
      throwIter (stop_at 0) (quotient 0) 300 (delay0 0 0) = some n ∧
      throwRun (fun _ => false) 0 0 = some (false, evs) ∧ 1 ≤ n ∧
      lastDisplay evs = faces.get? ((initFace 0 + (n - 1)) % 6) :=
  throw_final_face 0 0 (by decide) (by decide)

/-- Claim C2: for every pair of 16-bit inputs, the delay-growth loop of
throw terminates (the fueled model completes with fuel 300) and the number
of iterations is at most 40. -/
theorem throw_terminates (seed prev : Nat) (hs : seed < 65536)
    (hp : prev < 65536) :
    ∃ n, throwIter (stop_at seed) (quotient seed) 300 (delay0 seed prev) =
        some n ∧ n ≤ 40 := by
  obtain ⟨n, hn⟩ := throwIter_some (stop_at seed) (quotient seed) 299
    (delay0 seed prev)
    (by have := stop_at_ub seed; have := delay0_lb seed prev; omega)
  have hn2 : throwIter (stop_at seed) (quotient seed) 300 (delay0 seed prev) =
      some n := by simpa using hn
  refine ⟨n, hn2, ?_⟩
  have h1 : orbit 6 24 5 = 782 := by decide
  have h2 : orbit 6 24 5 ≤ orbit (quotient seed) 24 (delay0 seed prev) :=
    orbit_six_le (quotient_lb seed) (quotient_ub seed) 24 _ 5
      (delay0_lb seed prev)
  have horb : stop_at seed ≤ orbit (quotient seed) 24 (delay0 seed prev) := by
    have := stop_at_ub seed
    omega
  have := throwIter_le_orbit (stop_at seed) (quotient seed) 24 300
    (delay0 seed prev) n horb hn2
  omega

/-- Claim C2 witness at seed 1063, previous_seed 0. -/
theorem throw_terminates_case :
    ∃ n, throwIter (stop_at 1063) (quotient 1063) 300 (delay0 1063 0) =
        some n ∧ n ≤ 40 :=
  throw_terminates 1063 0 (by decide) (by decide)

/-- Claim C3, counterexample: at seed 1023, previous_seed 0 the duration is
exactly 1023 but the initial delay is 68 - 65472/1024 = 68 - 63 = 5, not 4
as the claim states for duration ≥ 1023. -/
theorem delay0_formula_cex :
    1023 ≤ duration 1023 0 ∧ delay0 1023 0 = 5 ∧ delay0 1023 0 ≠ 4 := by
  decide

/-- Claim C3 (amended): the initial inter-frame delay equals
68 - min(duration, 1023) * 64 / 1024 with duration the wrapping 16-bit
difference seed - previous_seed; it always lies in [4, 68] (indeed in
[5, 68]), equals 68 when duration = 0, and equals 5 (not 4) when
duration ≥ 1023, because 1023 * 64 / 1024 truncates to 63. -/
theorem delay0_formula (seed prev : Nat) :
    delay0 seed prev = 68 - min (duration seed prev) 1023 * 64 / 1024 ∧
    4 ≤ delay0 seed prev ∧ delay0 seed prev ≤ 68 ∧
    (duration seed prev = 0 → delay0 seed prev = 68) ∧
    (1023 ≤ duration seed prev → delay0 seed prev = 5) := by
  have hmin : durationClamped seed prev = min (duration seed prev) 1023 := by
    unfold durationClamped
    split <;> omega
  refine ⟨?_, ?_, delay0_ub seed prev, ?_, ?_⟩
  · rw [delay0_eq, hmin]
  · have := delay0_lb seed prev
    omega
  · intro h0
    have hc : durationClamped seed prev = 0 := by
      unfold durationClamped
      rw [h0]
      simp
    rw [delay0_eq, hc]
  · intro h1023
    have hc : durationClamped seed prev = 1023 := by
      unfold durationClamped
      split <;> omega
    rw [delay0_eq, hc]

/-- Claim C4: whenever a button press is observed during the busy-wait of
some iteration of throw, throw returns true with an event list that holds
no terminal 20 ms beep, consists only of the complete display-plus-3ms-beep
frames that finished before the observation, and is a prefix of the events
of the uninterrupted run: nothing is displayed or beeped after the
observation. -/
theorem throw_abort_clean (btn : Nat → Bool) (seed prev : Nat)
    (hs : seed < 65536) (hp : prev < 65536) (evs : List Ev)
    (h : throwRun btn seed prev = some (true, evs)) :
    Ev.beepEv 20 ∉ evs ∧ framePairs evs = true ∧
    ∃ evsC rest,
      throwRun (fun _ => false) seed prev = some (false, evsC) ∧
      evs ++ rest = evsC := by
  unfold throwRun at h
  obtain ⟨hnotin, hfp, hpref⟩ := run_abort btn (stop_at seed) (quotient seed)
    300 (delay0 seed prev) (initFace seed) 0 evs h
  obtain ⟨n, evsC, hit, hloop, hpos, hlast⟩ :=
    run_clean (stop_at seed) (quotient seed) 299 (delay0 seed prev)
      (initFace seed) 0 (Nat.mod_lt _ (by omega))
      (by have := stop_at_ub seed; have := delay0_lb seed prev; omega)
  have hloop2 : throwLoop (fun _ => false) (stop_at seed) (quotient seed) 300
      (delay0 seed prev) (initFace seed) 0 = some (false, evsC) := by
    simpa using hloop
  obtain ⟨rest, hrest⟩ := hpref evsC hloop2
  exact ⟨hnotin, hfp, evsC, rest, by unfold throwRun; exact hloop2, hrest⟩

/-- Claim C4 witness: with the button pressed from the start, throw at
seed 0, previous_seed 0 aborts with an empty event list, which is a prefix
of the clean run's events. -/
theorem throw_abort_case :
    Ev.beepEv 20 ∉ ([] : List Ev) ∧ framePairs [] = true ∧
    ∃ evsC rest,
      throwRun (fun _ => false) 0 0 = some (false, evsC) ∧
      ([] : List Ev) ++ rest = evsC :=
  throw_abort_clean (fun _ => true) 0 0 (by decide) (by decide) []
    (by decide)

/-- Claim C5: for a 16-bit initial seed s and a button trace that is held
for exactly k polling ticks and released at tick k, spin returns
(s + k) mod 2^16 exactly (within the claim's ±1 tolerance), and the
pattern displayed at tick i is spin_sequence[((s + i) mod 2^16) / 32 mod 6]
for i = 0..k-1; with k = 0 (button already released on entry) the seed is
returned unchanged with no display. -/
theorem spin_deterministic (btn : Nat → Bool) (k s : Nat) (hs : s < 65536)
    (hpress : ∀ i, i < k → btn i = true) (hrel : btn k = false) :
    spinLoop btn (k + 1) s 0 =
      some ((s + k) % 65536,
        (List.range k).map fun i =>
          spin_sequence.getD (spinIndex ((s + i) % 65536)) 0) :=
  spin_run btn k s 0 hs (fun i hi => by simpa using hpress i hi)
    (by simpa using hrel)

/-- Claim C5 witness: seed 1000 with the button held for 3 ticks. -/
theorem spin_deterministic_case :
    spinLoop (fun t => decide (t < 3)) 4 1000 0 =
      some ((1000 + 3) % 65536,
        (List.range 3).map fun i =>
          spin_sequence.getD (spinIndex ((1000 + i) % 65536)) 0) :=
  spin_deterministic (fun t => decide (t < 3)) 3 1000 (by decide)
    (fun i hi => decide_eq_true hi) (by decide)

/-- Claim C6, counterexample: at seed 100 the previous_seed 101 is larger
than 100, yet the initial delay drops from 68 to 5, because the 16-bit
difference seed - previous_seed wraps around to 65535 and is clamped
to 1023: larger previous_seed does not always give larger-or-equal
initial delay. -/
theorem delay0_monotone_cex :
    100 < 101 ∧ delay0 100 101 < delay0 100 100 := by decide

/-- Claim C6 (amended): for a fixed 16-bit seed and previous seeds that do
not exceed seed (so the 16-bit difference does not wrap), a larger
previous_seed yields a larger-or-equal initial delay and a
less-than-or-equal number of iterations of the delay-growth loop. -/
theorem delay0_monotone (seed pa pb : Nat) (hab : pa ≤ pb) (hbs : pb ≤ seed)
    (hs : seed < 65536) :
    delay0 seed pa ≤ delay0 seed pb ∧
    (throwIter (stop_at seed) (quotient seed) 300
        (delay0 seed pa)).isSome = true ∧
    (throwIter (stop_at seed) (quotient seed) 300
        (delay0 seed pb)).isSome = true ∧
    (throwIter (stop_at seed) (quotient seed) 300 (delay0 seed pb)).getD 0 ≤
      (throwIter (stop_at seed) (quotient seed) 300 (delay0 seed pa)).getD 0 := by
  have hda : duration seed pa = seed - pa := by
    unfold duration
    rw [show seed + 65536 - pa = seed - pa + 65536 by omega,
      Nat.add_mod_right, Nat.mod_eq_of_lt (by omega)]
  have hdb : duration seed pb = seed - pb := by
    unfold duration
    rw [show seed + 65536 - pb = seed - pb + 65536 by omega,
      Nat.add_mod_right, Nat.mod_eq_of_lt (by omega)]
  have hclamp : durationClamped seed pb ≤ durationClamped seed pa := by
    unfold durationClamped
    rw [hda, hdb]
    split <;> split <;> omega
  have hd0 : delay0 seed pa ≤ delay0 seed pb := by
    rw [delay0_eq, delay0_eq]
    have h64 : durationClamped seed pb * 64 ≤ durationClamped seed pa * 64 := by
      omega
    have hdiv : durationClamped seed pb * 64 / 1024 ≤
        durationClamped seed pa * 64 / 1024 := Nat.div_le_div_right h64
    omega
  obtain ⟨na, hna⟩ := throwIter_some (stop_at seed) (quotient seed) 299
    (delay0 seed pa)
    (by have := stop_at_ub seed; have := delay0_lb seed pa; omega)
  obtain ⟨nb, hnb⟩ := throwIter_some (stop_at seed) (quotient seed) 299
    (delay0 seed pb)
    (by have := stop_at_ub seed; have := delay0_lb seed pb; omega)
  have hna2 : throwIter (stop_at seed) (quotient seed) 300 (delay0 seed pa) =
      some na := by simpa using hna
  have hnb2 : throwIter (stop_at seed) (quotient seed) 300 (delay0 seed pb) =
      some nb := by simpa using hnb
  have hle := throwIter_antitone (stop_at seed) (quotient seed) 300
    (delay0 seed pa) (delay0 seed pb) na nb hd0 hna2 hnb2
  refine ⟨hd0, by rw [hna2]; rfl, by rw [hnb2]; rfl, ?_⟩
  rw [hna2, hnb2]
  simpa using hle

/-- Claim C6 witness at seed 1000 with previous seeds 0 and 500. -/
theorem delay0_monotone_case :
    delay0 1000 0 ≤ delay0 1000 500 ∧
    (throwIter (stop_at 1000) (quotient 1000) 300
        (delay0 1000 0)).isSome = true ∧
    (throwIter (stop_at 1000) (quotient 1000) 300
        (delay0 1000 500)).isSome = true ∧
    (throwIter (stop_at 1000) (quotient 1000) 300 (delay0 1000 500)).getD 0 ≤
      (throwIter (stop_at 1000) (quotient 1000) 300 (delay0 1000 0)).getD 0 :=
  delay0_monotone 1000 0 500 (by decide) (by decide) (by decide)

set_option maxRecDepth 8000 in
/-- Claim C7, counterexample: the soft-dim stage with no button press runs
exactly 127 cycles, and no cycle has duty 0/32: the duty 32 - a/4 stays at
or above 1/32, so the duty cycle does not decrease down to 0/32 as the
claim states. -/
theorem soft_dim_profile_cex :
    (softDim (fun _ => false) 0).2.length = 127 ∧
    0 ∉ (softDim (fun _ => false) 0).2.map Prod.fst := by decide

/-- Claim C7 (amended): after the active-wait timeout the soft-dim stage
performs exactly 127 software-PWM cycles, re-drawing the pip pattern that
was displayed on entry each cycle with duty 32 - a/4 out of 32 at cycle a,
a non-increasing sequence from 32/32 down to 1/32 (not 0/32); if the
button is pressed at cycle j the stage returns true right after that
cycle, having run only cycles 0..j. -/
theorem soft_dim_profile (btn : Nat → Bool) (fig : Nat) :
    ((∀ a, a < 127 → btn a = false) →
      softDim btn fig =
        (false, (List.range 127).map fun a => (softDimDuty a, fig))) ∧
    (∀ j, j < 127 → (∀ i, i < j → btn i = false) → btn j = true →
      softDim btn fig =
        (true, (List.range (j + 1)).map fun a => (softDimDuty a, fig))) ∧
    softDimDuty 0 = 32 ∧ softDimDuty 126 = 1 ∧
    (∀ a b : Nat, a ≤ b → softDimDuty b ≤ softDimDuty a) := by
  refine ⟨?_, ?_, rfl, rfl, ?_⟩
  · intro hno
    unfold softDim
    rw [softDimLoop_clean btn fig 127 0 (fun i hi => by simpa using hno i hi)]
    exact congrArg (Prod.mk false) (List.map_congr_left fun i _ => by simp)
  · intro j hj hpre hbj
    unfold softDim
    rw [softDimLoop_press btn fig 127 0 j hj
      (fun i hi => by simpa using hpre i hi) (by simpa using hbj)]
    exact congrArg (Prod.mk true) (List.map_congr_left fun i _ => by simp)
  · intro a b hab
    unfold softDimDuty
    have hdiv : a / (128 / 32) ≤ b / (128 / 32) := Nat.div_le_div_right hab
    omega

/-- Claim C7 witness: the clean dim at pattern 5 and a dim aborted by a
press at cycle 5 with pattern 7. -/
theorem soft_dim_profile_case :
    softDim (fun _ => false) 5 =
      (false, (List.range 127).map fun a => (softDimDuty a, 5)) ∧
    softDim (fun t => decide (t = 5)) 7 =
      (true, (List.range 6).map fun a => (softDimDuty a, 7)) :=
  ⟨(soft_dim_profile (fun _ => false) 5).1 (fun a _ => rfl),
   (soft_dim_profile (fun t => decide (t = 5)) 7).2.1 5 (by decide)
     (fun i hi => decide_eq_false (by omega)) (by decide)⟩

/-- Claim C8: for every button trace and every entry state, fade leaves the
pip pattern on PORTA unchanged (only the decoration PWM register is
driven), and on every exit path the decoration pin direction bit DDRB.PB2
is low (released to input) when fade returns. -/
theorem fade_preserves_pips (btn : Nat → Bool) (s : HwState) :
    (fade btn s).1.porta = s.porta ∧ (fade btn s).1.ddrbPB2 = false := by
  constructor
  · simp [fade, fadeLoop_porta]
  · simp [fade]

/-- Claim C9: each faces entry for index i in 0..5 has popcount i + 1, and
each entry is invariant under reversal of its seven bits (bit b swapped
with bit 6 - b), the 180-degree rotation of the pip layout. -/
theorem faces_table_props :
    ∀ i, i < 6 → popcount7 (faces.getD i 0) = i + 1 ∧
      rev7 (faces.getD i 0) = faces.getD i 0 := by decide

/-- Claim C9 witness at face index 5. -/
theorem faces_table_props_case :
    popcount7 (faces.getD 5 0) = 5 + 1 ∧
      rev7 (faces.getD 5 0) = faces.getD 5 0 :=
  faces_table_props 5 (by decide)

/-- Claim C10: every table lookup is in bounds: the spin frame index is
always below the spin_sequence length; the throw run never fails for any
16-bit inputs and any button trace (its faces lookups, modelled with get?
so that an out-of-bounds index poisons the run, always succeed, and its
fuel suffices); and fade reads intensity_table only at indices below its
length. -/
theorem table_lookups_in_bounds :
    (∀ seed : Nat, spinIndex seed < spin_sequence.length) ∧
    (∀ (btn : Nat → Bool) (seed prev : Nat), seed < 65536 → prev < 65536 →
      throwRun btn seed prev ≠ none) ∧
    (∀ (btn : Nat → Bool) (s : HwState), ∀ i ∈ (fade btn s).2,
      i < intensity_table.length) := by
  refine ⟨?_, ?_, ?_⟩
  · intro seed
    exact spinIndex_lt seed
  · intro btn seed prev hs hp
    unfold throwRun
    have := run_total btn (stop_at seed) (quotient seed) 299 (delay0 seed prev)
      (initFace seed) 0 (Nat.mod_lt _ (by omega))
      (by have := stop_at_ub seed; have := delay0_lb seed prev; omega)
    simpa using this
  · intro btn s i hi
    have hi2 : i ∈ (fadeLoop btn 64 0
        { s with ddrbPB2 := true, ocr0a := 255 }).2 := by
      simpa [fade] using hi
    exact fadeLoop_reads_lt btn 64 0 _ i hi2

/-- Claim C10 witness: the throw run with no press at seed 123,
previous_seed 456 does not fail. -/
theorem table_lookups_case :
    throwRun (fun _ => false) 123 456 ≠ none :=
  table_lookups_in_bounds.2.1 (fun _ => false) 123 456 (by decide) (by decide)

end AvrDice
